import Mathlib

/-!
Verification of the OpenProjectBot report pipeline
(`internal/services/open_project.go`).

The development shallowly embeds the task-classification, employee
aggregation, pagination and dispatcher logic of the Go service:

* strings are modelled at the level of their character (rune) sequences;
  for the byte-level Go operations used here (substring containment of
  valid UTF-8 keywords, prefix comparison against ASCII dates, byte
  index of the ASCII character T) the character-level functions agree
  extensionally with the byte-level originals, because UTF-8 is
  self-synchronizing and code-point order agrees with byte order;
* `time.Time` is modelled as an instant (Unix seconds) together with a
  fixed UTC offset for its location;
* the network is modelled as an oracle mapping request URLs to
  responses, and JSON decoding of a response body as part of that
  oracle.
-/

namespace OpenProjectBot

/-! ## Go Unicode lowering, restricted

`strings.ToLower` applies `unicode.ToLower` to every rune.  The status
keyword tables below consist of ASCII Latin letters, Cyrillic letters
`а`-`я` and spaces, so the only runes whose Go lowering lands inside a
keyword are: `A`-`Z`, the Cyrillic capitals `А`-`Я`, the dotted capital
I (U+0130) and the Kelvin sign (U+212A).  `goToLower` lowers exactly
those (plus `Ё`) and is the identity elsewhere; substring matching
against these keyword tables therefore agrees with the Go original on
every input string. -/

def goToLower (c : Char) : Char :=
  if 'A' ≤ c ∧ c ≤ 'Z' then Char.ofNat (c.toNat + 32)
  else if 'А' ≤ c ∧ c ≤ 'Я' then Char.ofNat (c.toNat + 32)
  else if c = 'Ё' then 'ё'
  else if c = Char.ofNat 0x0130 then 'i'
  else if c = Char.ofNat 0x212A then 'k'
  else c

/-- Boolean prefix test on character lists. -/
def isPrefixOfB : List Char → List Char → Bool
  | [], _ => true
  | _ :: _, [] => false
  | a :: as, b :: bs => a = b && isPrefixOfB as bs

/-- `containsB needle hay` models Go `strings.Contains(hay, needle)`. -/
def containsB (needle : List Char) : List Char → Bool
  | [] => isPrefixOfB needle []
  | c :: rest => isPrefixOfB needle (c :: rest) || containsB needle rest

/-- Embeds `containsStatus`: lower the status, then test whether any
lowered keyword of the list occurs as a substring. -/
def containsStatus (status : String) (statusList : List String) : Bool :=
  let lowerStatus := status.data.map goToLower
  statusList.any (fun v => containsB (v.data.map goToLower) lowerStatus)

/-- Keyword table of `isInProgressStatus`. -/
def inProgressStatuses : List String :=
  ["в процессе", "в работе", "in progress", "выполняется"]

/-- Embeds `isInProgressStatus`. -/
def isInProgressStatus (status : String) : Bool :=
  containsStatus status inProgressStatuses

/-- Keyword table of `isSentToTestStatus`. -/
def testStatuses : List String :=
  ["готово к тесту", "тестирование", "на тесте", "передано на тесты"]

/-- Embeds `isSentToTestStatus`. -/
def isSentToTestStatus (status : String) : Bool :=
  containsStatus status testStatuses

/-- Keyword table of `isExcludedFromBacklogStatus`. -/
def excludedStatuses : List String :=
  ["разработан", "в ветку разработки"]

/-- Embeds `isExcludedFromBacklogStatus`. -/
def isExcludedFromBacklogStatus (status : String) : Bool :=
  containsStatus status excludedStatuses

/-! ## Time model

A `time.Time` value is an absolute instant plus a location.  Locations
are modelled as fixed UTC offsets in seconds (Go locations may carry
DST rules; the service only ever uses the parse result's fixed zone and
the report date's zone at a single instant, so a fixed offset captures
the behaviour exercised here). -/

structure GoTime where
  sec : Int
  offset : Int
  deriving DecidableEq

/-- Go leap-year rule (`isLeap` in package `time`). -/
def isLeapYear (y : Int) : Bool :=
  y % 4 == 0 && (y % 100 != 0 || y % 400 == 0)

def daysInMonth (y : Int) (m : Nat) : Nat :=
  match m with
  | 2 => if isLeapYear y then 29 else 28
  | 4 | 6 | 9 | 11 => 30
  | _ => 31

/-- Days from 1970-01-01 of the civil date `y-m-d` (proleptic
Gregorian), with truncating division exactly as in the classic civil
calendar algorithm used by `time` arithmetic. -/
def daysFromCivil (y : Int) (m d : Nat) : Int :=
  let y : Int := if m ≤ 2 then y - 1 else y
  let era : Int := (if 0 ≤ y then y else y - 399) / 400
  let yoe : Int := y - era * 400
  let mp : Int := if 2 < m then (m : Int) - 3 else (m : Int) + 9
  let doy : Int := (153 * mp + 2) / 5 + (d : Int) - 1
  let doe : Int := yoe * 365 + yoe / 4 - yoe / 100 + doy
  era * 146097 + doe - 719468

/-- Civil date `(y, m, d)` of a day count from 1970-01-01. -/
def civilFromDays (z : Int) : Int × Nat × Nat :=
  let z := z + 719468
  let era : Int := (if 0 ≤ z then z else z - 146096) / 146097
  let doe : Int := z - era * 146097
  let yoe : Int := (doe - doe / 1460 + doe / 36524 - doe / 146096) / 365
  let y : Int := yoe + era * 400
  let doy : Int := doe - (365 * yoe + yoe / 4 - yoe / 100)
  let mp : Int := (5 * doy + 2) / 153
  let d : Int := doy - (153 * mp + 2) / 5 + 1
  let m : Int := if mp < 10 then mp + 3 else mp - 9
  (if m ≤ 2 then y + 1 else y, m.toNat, d.toNat)

def isDigitChar (c : Char) : Bool :=
  '0' ≤ c && c ≤ '9'

def dval (c : Char) : Nat := c.toNat - 48

/-- Decimal digits of `n` (most significant first), fuel-structured so
that it evaluates inside the kernel. -/
def natDigitsAux : Nat → Nat → List Char → List Char
  | 0, _, acc => acc
  | fuel + 1, n, acc =>
    let d := Char.ofNat (48 + n % 10)
    if n < 10 then d :: acc else natDigitsAux fuel (n / 10) (d :: acc)

def natToStr (n : Nat) : String :=
  String.mk (natDigitsAux (n + 1) n [])

def padLeftZeros (w : Nat) (s : String) : String :=
  String.mk (List.replicate (w - s.data.length) '0') ++ s

def pad2 (n : Nat) : String := padLeftZeros 2 (natToStr n)

/-- Year field of Go `Format("2006-01-02")`: at least four digits,
sign first for negative years. -/
def padYear (y : Int) : String :=
  if y < 0 then "-" ++ padLeftZeros 4 (natToStr (-y).toNat)
  else padLeftZeros 4 (natToStr y.toNat)

/-- Embeds `t.Format("2006-01-02")`: the civil date of the wall-clock
time of `t` in its location. -/
def formatDate (t : GoTime) : String :=
  let wall := t.sec + t.offset
  let days := wall.fdiv 86400
  let c := civilFromDays days
  padYear c.1 ++ "-" ++ pad2 c.2.1 ++ "-" ++ pad2 c.2.2

/-- Embeds `t.In(loc)`: same instant, location replaced. -/
def inLoc (t : GoTime) (offset : Int) : GoTime :=
  { sec := t.sec, offset := offset }

/-- Numeric UTC offset suffix of an RFC 3339 timestamp: either `Z` or
`±hh:mm` with `hh ≤ 23`, `mm ≤ 59`, at the very end of the string. -/
def parseOffset : List Char → Option Int
  | ['Z'] => some 0
  | [sg, h1, h2, ':', m1, m2] =>
    if (sg = '+' || sg = '-') && isDigitChar h1 && isDigitChar h2 &&
        isDigitChar m1 && isDigitChar m2 then
      let hh := 10 * dval h1 + dval h2
      let mm := 10 * dval m1 + dval m2
      if hh ≤ 23 && mm ≤ 59 then
        let v : Int := hh * 3600 + mm * 60
        some (if sg = '-' then -v else v)
      else none
    else none
  | _ => none

/-- Optional fractional-second field (a dot followed by at least one
digit) and then the offset. -/
def parseFracThenOffset : List Char → Option Int
  | '.' :: rest =>
    if (rest.takeWhile isDigitChar).isEmpty then none
    else parseOffset (rest.dropWhile isDigitChar)
  | rest => parseOffset rest

/-- Embeds `time.Parse(time.RFC3339, s)` (canonical form, as produced
by the OpenProject API): `yyyy-mm-ddThh:mm:ss[.f...]<offset>`, with Go's
range validation, yielding the parsed instant in the fixed zone of the
offset. -/
def parseRFC3339 (s : List Char) : Option GoTime :=
  match s with
  | y1 :: y2 :: y3 :: y4 :: '-' :: m1 :: m2 :: '-' :: d1 :: d2 :: 'T' ::
      h1 :: h2 :: ':' :: n1 :: n2 :: ':' :: s1 :: s2 :: rest =>
    if isDigitChar y1 && isDigitChar y2 && isDigitChar y3 && isDigitChar y4 &&
        isDigitChar m1 && isDigitChar m2 && isDigitChar d1 && isDigitChar d2 &&
        isDigitChar h1 && isDigitChar h2 && isDigitChar n1 && isDigitChar n2 &&
        isDigitChar s1 && isDigitChar s2 then
      let year : Int := (1000 * dval y1 + 100 * dval y2 + 10 * dval y3 + dval y4 : Nat)
      let month := 10 * dval m1 + dval m2
      let day := 10 * dval d1 + dval d2
      let hour := 10 * dval h1 + dval h2
      let minute := 10 * dval n1 + dval n2
      let second := 10 * dval s1 + dval s2
      if 1 ≤ month && month ≤ 12 && 1 ≤ day && day ≤ daysInMonth year month &&
          hour ≤ 23 && minute ≤ 59 && second ≤ 59 then
        match parseFracThenOffset rest with
        | some off =>
          some { sec := daysFromCivil year month day * 86400 +
                        (hour * 3600 + minute * 60 + second : Nat) - off,
                 offset := off }
        | none => none
      else none
    else none
  | _ => none

/-! ## Task record

Mirrors `models.WorkPackage`: the decoded `_links` sub-object carries
`title`/`href` pairs (the `responsible` link only decodes its title). -/

structure WPLink where
  title : String
  href : String
  deriving DecidableEq

structure WPLinks where
  typeLink : WPLink
  status : WPLink
  priority : WPLink
  assignee : WPLink
  responsibleTitle : String
  project : WPLink
  deriving DecidableEq

structure WorkPackage where
  id : Int
  subject : String
  links : WPLinks
  startDate : Option String
  dueDate : Option String
  createdAt : String
  updatedAt : String
  testPassedDate : Option String
  deriving DecidableEq

/-! ## Classification -/

def taskCategoryBacklog : String := "backlog"
def taskCategoryInProgress : String := "in_progress"
def taskCategorySentToTestToday : String := "sent_to_test_today"

/-- Characters of `s` strictly before the first `T`, when `T` occurs
(`strings.Index(s, "T")` pins the same position at byte and at
character level since `T` is ASCII). -/
def splitBeforeT : List Char → Option (List Char)
  | [] => none
  | c :: rest =>
    if c = 'T' then some []
    else (splitBeforeT rest).map (fun pre => c :: pre)

/-- Core of `isSentToTestToday`, on the two record fields it reads.
The date-layout constant has length 10, so the byte-level prefix
comparisons of the Go fallback agree with these character-level ones. -/
def sentToTestTodayCore (statusTitle updatedAt : String) (reportDate : GoTime) : Bool :=
  if updatedAt = "" then false
  else if !isSentToTestStatus statusTitle then false
  else
    let targetDate := formatDate reportDate
    match parseRFC3339 updatedAt.data with
    | some t => formatDate (inLoc t reportDate.offset) == targetDate
    | none =>
      let fallback :=
        if 10 ≤ updatedAt.data.length then
          String.mk (updatedAt.data.take 10) == targetDate
        else false
      match splitBeforeT updatedAt.data with
      | some pre => if 0 < pre.length then String.mk pre == targetDate else fallback
      | none => fallback

/-- Embeds `isSentToTestToday`. -/
def isSentToTestToday (task : WorkPackage) (reportDate : GoTime) : Bool :=
  sentToTestTodayCore task.links.status.title task.updatedAt reportDate

/-- Core of `classifyTask`, on the two record fields it reads. -/
def classifyCore (statusTitle updatedAt : String) (reportDate : GoTime) : String :=
  if statusTitle = "" then ""
  else if isSentToTestStatus statusTitle then
    if sentToTestTodayCore statusTitle updatedAt reportDate then
      taskCategorySentToTestToday
    else ""
  else if isInProgressStatus statusTitle then taskCategoryInProgress
  else if isExcludedFromBacklogStatus statusTitle then ""
  else taskCategoryBacklog

/-- Embeds `classifyTask`; the empty string is the discard category. -/
def classifyTask (task : WorkPackage) (reportDate : GoTime) : String :=
  classifyCore task.links.status.title task.updatedAt reportDate

/-! ## Sample values used to instantiate universally quantified results -/

def sampleLinks (status assignee : String) : WPLinks :=
  { typeLink := { title := "Task", href := "" },
    status := { title := status, href := "" },
    priority := { title := "Normal", href := "" },
    assignee := { title := assignee, href := "" },
    responsibleTitle := "",
    project := { title := "P", href := "" } }

def mkSampleTask (status assignee updatedAt : String) : WorkPackage :=
  { id := 1, subject := "demo", links := sampleLinks status assignee,
    startDate := none, dueDate := none, createdAt := updatedAt,
    updatedAt := updatedAt, testPassedDate := none }

/-- Report reference instant 2024-06-01T10:00:00Z in the UTC zone. -/
def asOfJune1 : GoTime := { sec := 1717236000, offset := 0 }

/-! ## Employee statistics

`calculateEmployeeStats` keeps one row per assignee name in a map.  The
embedding realizes the map as a list of rows with pairwise distinct
names (`ensureUpd` updates the unique row of a present name and appends
a fresh row otherwise), folds the three classified lists over it in the
order of the Go code, and sorts by name.  Go enumerates the map in
unspecified order and sorts with the strict byte-order comparison
`res[i].Name < res[j].Name`; on rows with pairwise distinct names every
enumeration followed by such a sort yields the unique name-sorted
arrangement, which is what sorting the insertion-ordered enumeration
with `≤` on names produces.  Lean's `<`/`≤` on `String` compare
code-point sequences lexicographically, which agrees with Go's
byte-wise comparison on UTF-8 strings. -/

structure EmployeeStats where
  name : String
  inProgress : Nat
  sentToTestToday : Nat
  backlog : Nat
  deriving DecidableEq

def defaultStats (n : String) : EmployeeStats :=
  { name := n, inProgress := 0, sentToTestToday := 0, backlog := 0 }

def incInProgress (e : EmployeeStats) : EmployeeStats :=
  { e with inProgress := e.inProgress + 1 }

def incSentToTestToday (e : EmployeeStats) : EmployeeStats :=
  { e with sentToTestToday := e.sentToTestToday + 1 }

def incBacklog (e : EmployeeStats) : EmployeeStats :=
  { e with backlog := e.backlog + 1 }

/-- Replace the first row named `n` by its update (map semantics: at
most one row per name exists). -/
def updFirst (n : String) (g : EmployeeStats → EmployeeStats) :
    List EmployeeStats → List EmployeeStats
  | [] => []
  | e :: rest => if e.name = n then g e :: rest else e :: updFirst n g rest

/-- Embeds the `ensure` closure combined with the counter update: a
task with an empty assignee name contributes nothing; otherwise the row
of that name is created on demand and updated. -/
def ensureUpd (acc : List EmployeeStats) (n : String)
    (g : EmployeeStats → EmployeeStats) : List EmployeeStats :=
  if n = "" then acc
  else if acc.any (fun e => e.name == n) then updFirst n g acc
  else acc ++ [g (defaultStats n)]

/-- One of the three `for` loops of `calculateEmployeeStats`. -/
def bumpAll (g : EmployeeStats → EmployeeStats) (l : List WorkPackage)
    (acc : List EmployeeStats) : List EmployeeStats :=
  l.foldl (fun a t => ensureUpd a t.links.assignee.title g) acc

/-- Embeds `calculateEmployeeStats`: fold `inProgress`, then
`sentToTestToday`, then `backlog`, then sort rows by name ascending. -/
def calculateEmployeeStats (backlog inProgress sentToTestToday : List WorkPackage) :
    List EmployeeStats :=
  let acc1 := bumpAll incInProgress inProgress []
  let acc2 := bumpAll incSentToTestToday sentToTestToday acc1
  let acc3 := bumpAll incBacklog backlog acc2
  List.insertionSort (fun a b => a.name ≤ b.name) acc3

def sumBy (f : EmployeeStats → Nat) (l : List EmployeeStats) : Nat :=
  (l.map f).sum

/-- Tasks of a list whose assignee name is non-empty. -/
def countNonEmptyAssignee (l : List WorkPackage) : Nat :=
  (l.filter (fun t => !(t.links.assignee.title == ""))).length

/-- Tasks of a list assigned to the given name. -/
def cntName (l : List WorkPackage) (n : String) : Nat :=
  (l.filter (fun t => t.links.assignee.title == n)).length

/-- The row of a given name, when present. -/
def findByName (l : List EmployeeStats) (n : String) : Option EmployeeStats :=
  l.find? (fun e => e.name == n)

/-- The accumulator produced by the three folds of
`calculateEmployeeStats`, before sorting. -/
def rawStats (backlog inProgress sentToTestToday : List WorkPackage) :
    List EmployeeStats :=
  bumpAll incBacklog backlog
    (bumpAll incSentToTestToday sentToTestToday
      (bumpAll incInProgress inProgress []))

/-! ## Remote source client

`fetchWorkPackagesForUser` builds a filtered query URL, then follows
`_links.next.href` pages, concatenating the decoded elements.  The
network and the JSON decoding of response bodies are modelled by an
oracle from request URLs to response outcomes; pagination runs on
explicit fuel (the Go loop has no bound of its own, so a run that never
meets a page without a next link simply never succeeds). -/

def defaultPageSize : Nat := 200

/-- `strings.TrimRight(s, "/")`. -/
def trimRightSlashes (s : String) : String :=
  String.mk ((s.data.reverse.dropWhile (fun c => c = '/')).reverse)

/-- UTF-8 encoding of one code point. -/
def utf8Bytes (c : Char) : List Nat :=
  let n := c.toNat
  if n < 0x80 then [n]
  else if n < 0x800 then [0xC0 + n / 0x40, 0x80 + n % 0x40]
  else if n < 0x10000 then
    [0xE0 + n / 0x1000, 0x80 + (n / 0x40) % 0x40, 0x80 + n % 0x40]
  else
    [0xF0 + n / 0x40000, 0x80 + (n / 0x1000) % 0x40,
     0x80 + (n / 0x40) % 0x40, 0x80 + n % 0x40]

def hexDigitUpper (n : Nat) : Char :=
  if n < 10 then Char.ofNat (48 + n) else Char.ofNat (55 + n)

def hexDigitLower (n : Nat) : Char :=
  if n < 10 then Char.ofNat (48 + n) else Char.ofNat (87 + n)

def isUnreservedQueryChar (c : Char) : Bool :=
  ('A' ≤ c && c ≤ 'Z') || ('a' ≤ c && c ≤ 'z') || ('0' ≤ c && c ≤ '9') ||
    c = '-' || c = '_' || c = '.' || c = '~'

/-- `url.QueryEscape`: unreserved bytes kept, space to `+`, every other
byte percent-encoded in uppercase hex. -/
def queryEscape (s : String) : String :=
  String.mk (s.data.flatMap (fun c =>
    if isUnreservedQueryChar c then [c]
    else if c = ' ' then ['+']
    else (utf8Bytes c).flatMap
      (fun b => ['%', hexDigitUpper (b / 16), hexDigitUpper (b % 16)])))

/-- `encoding/json` string escaping (HTML escaping on, as under plain
`json.Marshal`): quote, backslash and control characters escaped, plus
`<`, `>`, `&`, U+2028 and U+2029. -/
def jsonEscapeChar (c : Char) : List Char :=
  if c = '"' then ['\\', '"']
  else if c = '\\' then ['\\', '\\']
  else if c = '\n' then ['\\', 'n']
  else if c = '\r' then ['\\', 'r']
  else if c = '\t' then ['\\', 't']
  else if c.toNat < 0x20 then
    ['\\', 'u', '0', '0', hexDigitLower (c.toNat / 16), hexDigitLower (c.toNat % 16)]
  else if c = '<' then ['\\', 'u', '0', '0', '3', 'c']
  else if c = '>' then ['\\', 'u', '0', '0', '3', 'e']
  else if c = '&' then ['\\', 'u', '0', '0', '2', '6']
  else if c.toNat = 0x2028 then ['\\', 'u', '2', '0', '2', '8']
  else if c.toNat = 0x2029 then ['\\', 'u', '2', '0', '2', '9']
  else [c]

def jsonStr (s : String) : String :=
  "\"" ++ String.mk (s.data.flatMap jsonEscapeChar) ++ "\""

/-- `json.Marshal` of the fixed filter triple: open status, project
equality, assignee equality (each wrapper map holds a single key). -/
def filtersJSON (projectID assigneeID : String) : String :=
  "[\x7b\"status\":\x7b\"operator\":\"o\",\"values\":[]\x7d\x7d," ++
    "\x7b\"project\":\x7b\"operator\":\"=\",\"values\":[" ++
    jsonStr projectID ++ "]\x7d\x7d," ++
    "\x7b\"assignee\":\x7b\"operator\":\"=\",\"values\":[" ++
    jsonStr assigneeID ++ "]\x7d\x7d]"

/-- The first request URL: trimmed base, fixed path, and
`url.Values.Encode` of the two parameters (keys sorted, so `filters`
precedes `pageSize`). -/
def initialURL (baseURL projectID assigneeID : String) : String :=
  trimRightSlashes baseURL ++ "/api/v3/work_packages" ++ "?" ++
    "filters=" ++ queryEscape (filtersJSON projectID assigneeID) ++
    "&pageSize=" ++ queryEscape (natToStr defaultPageSize)

/-- Embeds `resolveURL`. -/
def resolveURL (baseURL href : String) : String :=
  if isPrefixOfB "http://".data href.data || isPrefixOfB "https://".data href.data
  then href
  else trimRightSlashes baseURL ++ href

/-- One decoded `WorkPackageResponse`: the embedded elements and the
optional `_links.next.href`. -/
structure Page where
  elements : List WorkPackage
  nextHref : Option String
  deriving DecidableEq

/-- Outcome of one HTTP round trip: transport failure (with the
cancellation state of the context) or a response with status, raw body
and its decoding into `WorkPackageResponse` when well-formed. -/
inductive FetchStep where
  | netError (ctxCanceled : Bool)
  | resp (status : Nat) (body : String) (decoded : Option Page)

/-- Error surface of the fetcher: bare `ctx.Err()` on canceled
transport, wrapped transport error, non-200 status carrying the raw
status and body, and JSON decode failure. -/
inductive FetchError where
  | canceled
  | doRequest
  | apiStatus (status : Nat) (body : String)
  | unmarshal
  deriving DecidableEq

/-- The pagination loop of `fetchWorkPackagesForUser`; `none` means the
fuel ran out before a page without a next link was reached. -/
def fetchLoop (world : String → FetchStep) (baseURL : String) :
    Nat → String → List WorkPackage →
    Option (Except FetchError (List WorkPackage))
  | 0, _, _ => none
  | fuel + 1, url, acc =>
    match world url with
    | .netError canceled =>
      some (.error (if canceled then .canceled else .doRequest))
    | .resp status body decoded =>
      if status ≠ 200 then some (.error (.apiStatus status body))
      else
        match decoded with
        | none => some (.error .unmarshal)
        | some page =>
          match page.nextHref with
          | none => some (.ok (acc ++ page.elements))
          | some href =>
            if href = "" then some (.ok (acc ++ page.elements))
            else fetchLoop world baseURL fuel (resolveURL baseURL href)
              (acc ++ page.elements)

/-- Embeds `fetchWorkPackagesForUser`. -/
def fetchWorkPackagesForUser (world : String → FetchStep)
    (baseURL projectID assigneeID : String) (fuel : Nat) :
    Option (Except FetchError (List WorkPackage)) :=
  fetchLoop world baseURL fuel (initialURL baseURL projectID assigneeID) []

/-- A well-formed page chain of the oracle from a start URL: every page
answers with status 200 and decodes, consecutive pages are linked by
resolved next hrefs, and the last page carries no (or an empty) next
link. -/
inductive PageChain (world : String → FetchStep) (baseURL : String) :
    String → List Page → Prop
  | last (url : String) (body : String) (p : Page) :
    world url = .resp 200 body (some p) →
    (p.nextHref = none ∨ p.nextHref = some "") →
    PageChain world baseURL url [p]
  | step (url : String) (body : String) (p : Page) (href : String)
      (ps : List Page) :
    world url = .resp 200 body (some p) →
    p.nextHref = some href → href ≠ "" →
    PageChain world baseURL (resolveURL baseURL href) ps →
    PageChain world baseURL url (p :: ps)

/-! ## Worker-pool dispatcher

`collectAndClassifyTasks` error behaviour, embedded sequentially: the
per-(project, assignee) fetch outcomes are an oracle, and the
cancellation signal is a flag observed by the final `ctx.Err()` check.
Jobs whose fetch fails are skipped; the classified results of the rest
are merged.  (Scheduling order across workers is unspecified in the Go
code and irrelevant to the error surface modelled here; the liveness of
the pool is outside a functional embedding.) -/

inductive CollectError where
  | configurationError
  | canceled
  deriving DecidableEq

/-- Classification of one fetched batch into the three accumulators, as
done inside each worker. -/
def classifyBatch (reportDate : GoTime) (tasks : List WorkPackage)
    (acc : List WorkPackage × List WorkPackage × List WorkPackage) :
    List WorkPackage × List WorkPackage × List WorkPackage :=
  tasks.foldl (fun a t =>
    let c := classifyTask t reportDate
    if c = taskCategoryBacklog then (a.1 ++ [t], a.2.1, a.2.2)
    else if c = taskCategoryInProgress then (a.1, a.2.1 ++ [t], a.2.2)
    else if c = taskCategorySentToTestToday then (a.1, a.2.1, a.2.2 ++ [t])
    else a) acc

/-- Embeds the error behaviour of `collectAndClassifyTasks`: an empty
job cross-product is a configuration error before anything runs; a
failed fetch is logged and skipped; the final `ctx.Err()` check turns a
triggered cancellation signal into the returned error and drops the
merged results. -/
def collectAndClassifyTasks (projectIDs assigneeIDs : List String)
    (fetch : String → String → Except FetchError (List WorkPackage))
    (canceled : Bool) (reportDate : GoTime) :
    Except CollectError
      (List WorkPackage × List WorkPackage × List WorkPackage) :=
  if projectIDs.length * assigneeIDs.length = 0 then
    .error .configurationError
  else
    let jobs := projectIDs.flatMap (fun pid => assigneeIDs.map (fun aid => (pid, aid)))
    let res := jobs.foldl (fun acc j =>
      match fetch j.1 j.2 with
      | .error _ => acc
      | .ok tasks => classifyBatch reportDate tasks acc) ([], [], [])
    if canceled then .error .canceled else .ok res

/-! ### Concrete two-page oracle used to instantiate the pagination
results -/

def wBase : String := "https://op.example.com"

def wTask1 : WorkPackage := mkSampleTask "Новая" "Анна" "2024-06-01T10:00:00Z"

def wTask2 : WorkPackage := mkSampleTask "В работе" "Борис" "2024-06-01T10:00:00Z"

def wNextURL : String := "https://op.example.com/api/v3/work_packages?offset=2"

def wPage1 : Page := { elements := [wTask1], nextHref := some wNextURL }

def wPage2 : Page := { elements := [wTask2], nextHref := none }

def wStart : String := initialURL wBase "12" "7"

def wWorld : String → FetchStep := fun url =>
  if url = wStart then .resp 200 "page1" (some wPage1)
  else if url = wNextURL then .resp 200 "page2" (some wPage2)
  else .netError false

end OpenProjectBot

namespace OpenProjectBot

/-! ## Classifier theorems -/

theorem sentStatus_ne_empty {s : String} (h : isSentToTestStatus s = true) :
    s ≠ "" := by
  intro he
  subst he
  exact absurd h (by decide)

theorem parse_some_ne_empty {s : String} {t : GoTime}
    (h : parseRFC3339 s.data = some t) : s ≠ "" := by
  intro he
  subst he
  rw [show ("" : String).data = [] from rfl,
    show parseRFC3339 [] = none from rfl] at h
  exact Option.noConfusion h

/-- C1: a task whose status matches the sent-to-test keyword family is
classified `SentToTestToday` exactly when the date component of its
last-updated instant, rendered in the report's reference zone, equals
the report date; otherwise it is discarded.  The statement assumes
nothing about the in-progress family, so it covers statuses matching
both families: the sent-to-test rule is applied first and wins. -/
theorem classify_sentToTest_rule (task : WorkPackage) (asOf : GoTime) (t : GoTime)
    (hstatus : isSentToTestStatus task.links.status.title = true)
    (hparse : parseRFC3339 task.updatedAt.data = some t) :
    (classifyTask task asOf = taskCategorySentToTestToday ↔
      formatDate (inLoc t asOf.offset) = formatDate asOf) ∧
    (formatDate (inLoc t asOf.offset) ≠ formatDate asOf →
      classifyTask task asOf = "") := by
  have hne : task.links.status.title ≠ "" := sentStatus_ne_empty hstatus
  have hupd : task.updatedAt ≠ "" := parse_some_ne_empty hparse
  simp only [classifyTask, classifyCore, if_neg hne, hstatus, if_pos,
    sentToTestTodayCore, if_neg hupd, Bool.not_true, Bool.false_eq_true,
    if_false, hparse, ite_true]
  by_cases hd : formatDate (inLoc t asOf.offset) = formatDate asOf
  · simp [hd]
  · have hbe : (formatDate (inLoc t asOf.offset) == formatDate asOf) = false := by
      simpa using hd
    simp [hbe, hd]
    decide

theorem classify_sentToTest_rule_witness :
    isSentToTestStatus (mkSampleTask "Готово к тесту" "Alice"
        "2024-06-01T10:00:00Z").links.status.title = true ∧
    parseRFC3339 (mkSampleTask "Готово к тесту" "Alice"
        "2024-06-01T10:00:00Z").updatedAt.data =
      some { sec := 1717236000, offset := 0 } ∧
    ((classifyTask (mkSampleTask "Готово к тесту" "Alice" "2024-06-01T10:00:00Z")
        asOfJune1 = taskCategorySentToTestToday ↔
      formatDate (inLoc { sec := 1717236000, offset := 0 } asOfJune1.offset) =
        formatDate asOfJune1) ∧
    (formatDate (inLoc { sec := 1717236000, offset := 0 } asOfJune1.offset) ≠
        formatDate asOfJune1 →
      classifyTask (mkSampleTask "Готово к тесту" "Alice" "2024-06-01T10:00:00Z")
        asOfJune1 = "")) :=
  ⟨by decide, by decide,
    classify_sentToTest_rule _ asOfJune1 { sec := 1717236000, offset := 0 }
      (by decide) (by decide)⟩

/-- C2 counterexample: the empty status title matches none of the three
keyword families, yet the classifier discards such a task instead of
sending it to the backlog bucket. -/
theorem classify_default_backlog_cex :
    (mkSampleTask "" "Alice" "2024-06-01T10:00:00Z").links.status.title = "" ∧
    isSentToTestStatus "" = false ∧
    isInProgressStatus "" = false ∧
    isExcludedFromBacklogStatus "" = false ∧
    classifyTask (mkSampleTask "" "Alice" "2024-06-01T10:00:00Z") asOfJune1 ≠
      taskCategoryBacklog := by
  decide

/-- C2 (amended): a task whose status title is non-empty and matches
none of the three keyword families is classified `Backlog`. -/
theorem classify_default_backlog (task : WorkPackage) (asOf : GoTime)
    (hne : task.links.status.title ≠ "")
    (h1 : isSentToTestStatus task.links.status.title = false)
    (h2 : isInProgressStatus task.links.status.title = false)
    (h3 : isExcludedFromBacklogStatus task.links.status.title = false) :
    classifyTask task asOf = taskCategoryBacklog := by
  simp [classifyTask, classifyCore, hne, h1, h2, h3]

theorem classify_default_backlog_witness :
    (mkSampleTask "Новая" "Bob" "x").links.status.title ≠ "" ∧
    isSentToTestStatus "Новая" = false ∧
    isInProgressStatus "Новая" = false ∧
    isExcludedFromBacklogStatus "Новая" = false ∧
    classifyTask (mkSampleTask "Новая" "Bob" "x") asOfJune1 =
      taskCategoryBacklog :=
  ⟨by decide, by decide, by decide, by decide,
    classify_default_backlog _ asOfJune1 (by decide) (by decide) (by decide)
      (by decide)⟩

/-- C8: the classifier reads only the status title and the updated-at
timestamp of the record: two tasks agreeing on those two fields receive
the same category for every report date.  (Determinism on equal inputs
is inherent: the embedding is a function.) -/
theorem classify_field_independence (t1 t2 : WorkPackage) (asOf : GoTime)
    (hs : t1.links.status.title = t2.links.status.title)
    (hu : t1.updatedAt = t2.updatedAt) :
    classifyTask t1 asOf = classifyTask t2 asOf := by
  unfold classifyTask
  rw [hs, hu]

theorem classify_field_independence_witness :
    (mkSampleTask "В работе" "Alice" "2024-06-01T10:00:00Z").links.status.title =
      ({ id := 7, subject := "other", links := sampleLinks "В работе" "Bob",
         startDate := some "2024-01-01", dueDate := none, createdAt := "c",
         updatedAt := "2024-06-01T10:00:00Z",
         testPassedDate := some "2024-01-02" } : WorkPackage).links.status.title ∧
    (mkSampleTask "В работе" "Alice" "2024-06-01T10:00:00Z").updatedAt =
      ({ id := 7, subject := "other", links := sampleLinks "В работе" "Bob",
         startDate := some "2024-01-01", dueDate := none, createdAt := "c",
         updatedAt := "2024-06-01T10:00:00Z",
         testPassedDate := some "2024-01-02" } : WorkPackage).updatedAt ∧
    classifyTask (mkSampleTask "В работе" "Alice" "2024-06-01T10:00:00Z") asOfJune1 =
      classifyTask
        { id := 7, subject := "other", links := sampleLinks "В работе" "Bob",
          startDate := some "2024-01-01", dueDate := none, createdAt := "c",
          updatedAt := "2024-06-01T10:00:00Z",
          testPassedDate := some "2024-01-02" } asOfJune1 :=
  ⟨rfl, rfl, classify_field_independence _ _ asOfJune1 rfl rfl⟩

/-- C10: a task with an empty status title is discarded (the empty
category) for every report date, whatever its other fields hold. -/
theorem classify_empty_status_discarded (task : WorkPackage) (asOf : GoTime)
    (h : task.links.status.title = "") :
    classifyTask task asOf = "" := by
  simp [classifyTask, classifyCore, h]

/-! ### Aggregation: counter sums (C3) -/

theorem sumBy_append (f : EmployeeStats → Nat) (l1 l2 : List EmployeeStats) :
    sumBy f (l1 ++ l2) = sumBy f l1 + sumBy f l2 := by
  simp [sumBy]

theorem sumBy_updFirst_inc (f : EmployeeStats → Nat)
    (g : EmployeeStats → EmployeeStats) (n : String) (acc : List EmployeeStats)
    (hf : ∀ e, f (g e) = f e + 1)
    (hmem : acc.any (fun e => e.name == n) = true) :
    sumBy f (updFirst n g acc) = sumBy f acc + 1 := by
  induction acc with
  | nil => simp at hmem
  | cons e rest ih =>
    simp only [List.any_cons, Bool.or_eq_true] at hmem
    by_cases he : e.name = n
    · simp only [updFirst, if_pos he, sumBy, List.map_cons, List.sum_cons, hf]
      omega
    · have hm : rest.any (fun e => e.name == n) = true := by
        rcases hmem with h | h
        · exact absurd (by simpa using h) he
        · exact h
      simp only [updFirst, if_neg he, sumBy, List.map_cons, List.sum_cons]
      have := ih hm
      simp only [sumBy] at this
      omega

theorem sumBy_updFirst_keep (f : EmployeeStats → Nat)
    (g : EmployeeStats → EmployeeStats) (n : String) (acc : List EmployeeStats)
    (hf : ∀ e, f (g e) = f e) :
    sumBy f (updFirst n g acc) = sumBy f acc := by
  induction acc with
  | nil => rfl
  | cons e rest ih =>
    by_cases he : e.name = n
    · simp only [updFirst, if_pos he, sumBy, List.map_cons, List.sum_cons, hf]
    · simp only [updFirst, if_neg he, sumBy, List.map_cons, List.sum_cons]
      simp only [sumBy] at ih
      omega

theorem sumBy_ensureUpd_inc (f : EmployeeStats → Nat)
    (g : EmployeeStats → EmployeeStats) (n : String) (acc : List EmployeeStats)
    (hf : ∀ e, f (g e) = f e + 1) (hd0 : ∀ m, f (defaultStats m) = 0)
    (hn : n ≠ "") :
    sumBy f (ensureUpd acc n g) = sumBy f acc + 1 := by
  unfold ensureUpd
  rw [if_neg hn]
  by_cases hany : acc.any (fun e => e.name == n) = true
  · rw [if_pos hany]
    exact sumBy_updFirst_inc f g n acc hf hany
  · rw [if_neg hany, sumBy_append]
    simp [sumBy, hf, hd0]

theorem sumBy_ensureUpd_keep (f : EmployeeStats → Nat)
    (g : EmployeeStats → EmployeeStats) (n : String) (acc : List EmployeeStats)
    (hf : ∀ e, f (g e) = f e) (hd0 : ∀ m, f (defaultStats m) = 0) :
    sumBy f (ensureUpd acc n g) = sumBy f acc := by
  unfold ensureUpd
  by_cases hn : n = ""
  · rw [if_pos hn]
  · rw [if_neg hn]
    by_cases hany : acc.any (fun e => e.name == n) = true
    · rw [if_pos hany]
      exact sumBy_updFirst_keep f g n acc hf
    · rw [if_neg hany, sumBy_append]
      simp [sumBy, hf, hd0]

theorem sumBy_bumpAll_inc (f : EmployeeStats → Nat)
    (g : EmployeeStats → EmployeeStats)
    (hf : ∀ e, f (g e) = f e + 1) (hd0 : ∀ m, f (defaultStats m) = 0)
    (l : List WorkPackage) :
    ∀ acc, sumBy f (bumpAll g l acc) = sumBy f acc + countNonEmptyAssignee l := by
  induction l with
  | nil => intro acc; simp [bumpAll, countNonEmptyAssignee]
  | cons t rest ih =>
    intro acc
    have hstep : bumpAll g (t :: rest) acc =
        bumpAll g rest (ensureUpd acc t.links.assignee.title g) := rfl
    rw [hstep, ih]
    by_cases hn : t.links.assignee.title = ""
    · have hid : ensureUpd acc t.links.assignee.title g = acc := by
        unfold ensureUpd
        rw [if_pos hn]
      rw [hid]
      simp [countNonEmptyAssignee, List.filter_cons, hn]
    · rw [sumBy_ensureUpd_inc f g _ acc hf hd0 hn]
      simp only [countNonEmptyAssignee, List.filter_cons]
      have hb : (!(t.links.assignee.title == "")) = true := by simpa using hn
      simp [hb]
      omega

theorem sumBy_bumpAll_keep (f : EmployeeStats → Nat)
    (g : EmployeeStats → EmployeeStats)
    (hf : ∀ e, f (g e) = f e) (hd0 : ∀ m, f (defaultStats m) = 0)
    (l : List WorkPackage) :
    ∀ acc, sumBy f (bumpAll g l acc) = sumBy f acc := by
  induction l with
  | nil => intro acc; rfl
  | cons t rest ih =>
    intro acc
    have hstep : bumpAll g (t :: rest) acc =
        bumpAll g rest (ensureUpd acc t.links.assignee.title g) := rfl
    rw [hstep, ih, sumBy_ensureUpd_keep f g _ acc hf hd0]

theorem sumBy_perm (f : EmployeeStats → Nat) {l1 l2 : List EmployeeStats}
    (h : l1.Perm l2) : sumBy f l1 = sumBy f l2 :=
  (h.map f).sum_eq

/-- C3: in the aggregated output, each of the three counters sums to
the number of tasks of the corresponding classified input list having a
non-empty assignee name. -/
theorem calculateEmployeeStats_sums
    (backlog inProgress sentToTestToday : List WorkPackage) :
    sumBy (fun e => e.backlog)
        (calculateEmployeeStats backlog inProgress sentToTestToday) =
      countNonEmptyAssignee backlog ∧
    sumBy (fun e => e.inProgress)
        (calculateEmployeeStats backlog inProgress sentToTestToday) =
      countNonEmptyAssignee inProgress ∧
    sumBy (fun e => e.sentToTestToday)
        (calculateEmployeeStats backlog inProgress sentToTestToday) =
      countNonEmptyAssignee sentToTestToday := by
  unfold calculateEmployeeStats
  have hperm := List.perm_insertionSort
    (fun a b : EmployeeStats => a.name ≤ b.name)
    (bumpAll incBacklog backlog
      (bumpAll incSentToTestToday sentToTestToday
        (bumpAll incInProgress inProgress [])))
  refine ⟨?_, ?_, ?_⟩
  · rw [sumBy_perm (fun e => e.backlog) hperm,
      sumBy_bumpAll_inc (fun e => e.backlog) incBacklog (fun e => rfl)
        (fun m => rfl) backlog,
      sumBy_bumpAll_keep (fun e => e.backlog) incSentToTestToday (fun e => rfl)
        (fun m => rfl),
      sumBy_bumpAll_keep (fun e => e.backlog) incInProgress (fun e => rfl)
        (fun m => rfl)]
    simp [sumBy]
  · rw [sumBy_perm (fun e => e.inProgress) hperm,
      sumBy_bumpAll_keep (fun e => e.inProgress) incBacklog (fun e => rfl)
        (fun m => rfl),
      sumBy_bumpAll_keep (fun e => e.inProgress) incSentToTestToday (fun e => rfl)
        (fun m => rfl),
      sumBy_bumpAll_inc (fun e => e.inProgress) incInProgress (fun e => rfl)
        (fun m => rfl) inProgress]
    simp [sumBy]
  · rw [sumBy_perm (fun e => e.sentToTestToday) hperm,
      sumBy_bumpAll_keep (fun e => e.sentToTestToday) incBacklog (fun e => rfl)
        (fun m => rfl),
      sumBy_bumpAll_inc (fun e => e.sentToTestToday) incSentToTestToday
        (fun e => rfl) (fun m => rfl) sentToTestToday,
      sumBy_bumpAll_keep (fun e => e.sentToTestToday) incInProgress (fun e => rfl)
        (fun m => rfl)]
    simp [sumBy]

/-! ### Aggregation: per-name characterization (C4) -/

theorem calculateEmployeeStats_eq_sort
    (backlog inProgress sentToTestToday : List WorkPackage) :
    calculateEmployeeStats backlog inProgress sentToTestToday =
      List.insertionSort (fun a b => a.name ≤ b.name)
        (rawStats backlog inProgress sentToTestToday) := rfl

theorem findByName_updFirst_self (g : EmployeeStats → EmployeeStats)
    (hname : ∀ e, (g e).name = e.name) (n : String) (acc : List EmployeeStats) :
    findByName (updFirst n g acc) n = (findByName acc n).map g := by
  induction acc with
  | nil => rfl
  | cons e rest ih =>
    by_cases he : e.name = n
    · have hp : ((g e).name == n) = true := by simp [hname, he]
      have hp2 : (e.name == n) = true := by simp [he]
      simp [updFirst, if_pos he, findByName, List.find?_cons_of_pos, hp, hp2]
    · have hp : (e.name == n) = false := by simpa using he
      simp only [updFirst, if_neg he, findByName, List.find?]
      rw [hp]
      exact ih

theorem findByName_updFirst_other (g : EmployeeStats → EmployeeStats)
    (hname : ∀ e, (g e).name = e.name) (n m : String) (acc : List EmployeeStats)
    (hmn : m ≠ n) :
    findByName (updFirst n g acc) m = findByName acc m := by
  induction acc with
  | nil => rfl
  | cons e rest ih =>
    by_cases he : e.name = n
    · have hp : ((g e).name == m) = false := by
        simp [hname, he]
        exact fun h => hmn h.symm
      have hp2 : (e.name == m) = false := by
        simp [he]
        exact fun h => hmn h.symm
      simp only [updFirst, if_pos he, findByName, List.find?]
      rw [hp, hp2]
    · simp only [updFirst, if_neg he, findByName, List.find?]
      cases hem : (e.name == m) with
      | true => rfl
      | false => exact ih

theorem findByName_append_single (acc : List EmployeeStats) (x : EmployeeStats)
    (m : String) :
    findByName (acc ++ [x]) m =
      match findByName acc m with
      | some e => some e
      | none => if x.name == m then some x else none := by
  induction acc with
  | nil =>
    simp only [List.nil_append, findByName, List.find?]
    cases hx : (x.name == m) <;> rfl
  | cons e rest ih =>
    simp only [List.cons_append, findByName, List.find?] at *
    cases hem : (e.name == m) with
    | true => rfl
    | false => exact ih

theorem any_iff_findByName (acc : List EmployeeStats) (n : String) :
    acc.any (fun e => e.name == n) = true ↔ (findByName acc n).isSome := by
  rw [findByName, List.find?_isSome, List.any_eq_true]

theorem findByName_ensureUpd_self (g : EmployeeStats → EmployeeStats)
    (hname : ∀ e, (g e).name = e.name) (n : String) (acc : List EmployeeStats)
    (hn : n ≠ "") :
    findByName (ensureUpd acc n g) n =
      some (g ((findByName acc n).getD (defaultStats n))) := by
  unfold ensureUpd
  rw [if_neg hn]
  by_cases hany : acc.any (fun e => e.name == n) = true
  · rw [if_pos hany, findByName_updFirst_self g hname]
    obtain ⟨e, he⟩ := Option.isSome_iff_exists.mp ((any_iff_findByName acc n).mp hany)
    rw [he]
    rfl
  · rw [if_neg hany, findByName_append_single]
    have hnone : findByName acc n = none := by
      cases hfind : findByName acc n with
      | none => rfl
      | some e =>
        exact absurd ((any_iff_findByName acc n).mpr (by simp [hfind])) hany
    rw [hnone]
    have : ((g (defaultStats n)).name == n) = true := by
      simp [hname, defaultStats]
    simp only [this, if_true]
    rfl

theorem findByName_ensureUpd_other (g : EmployeeStats → EmployeeStats)
    (hname : ∀ e, (g e).name = e.name) (n m : String) (acc : List EmployeeStats)
    (hmn : m ≠ n) :
    findByName (ensureUpd acc n g) m = findByName acc m := by
  unfold ensureUpd
  by_cases hn : n = ""
  · rw [if_pos hn]
  · rw [if_neg hn]
    by_cases hany : acc.any (fun e => e.name == n) = true
    · rw [if_pos hany]
      exact findByName_updFirst_other g hname n m acc hmn
    · rw [if_neg hany, findByName_append_single]
      have : ((g (defaultStats n)).name == m) = false := by
        simp [hname, defaultStats]
        exact fun h => hmn h.symm
      rw [this]
      cases hfind : findByName acc m <;> rfl

theorem findByName_bumpAll (g : EmployeeStats → EmployeeStats)
    (hname : ∀ e, (g e).name = e.name) (l : List WorkPackage) (n : String)
    (hn : n ≠ "") :
    ∀ acc, findByName (bumpAll g l acc) n =
      if cntName l n = 0 then findByName acc n
      else some (g^[cntName l n] ((findByName acc n).getD (defaultStats n))) := by
  induction l with
  | nil => intro acc; simp [bumpAll, cntName]
  | cons t rest ih =>
    intro acc
    have hstep : bumpAll g (t :: rest) acc =
        bumpAll g rest (ensureUpd acc t.links.assignee.title g) := rfl
    rw [hstep, ih]
    by_cases ht : t.links.assignee.title = n
    · have hcnt : cntName (t :: rest) n = cntName rest n + 1 := by
        simp only [cntName, List.filter_cons]
        have : (t.links.assignee.title == n) = true := by simpa using ht
        rw [this]
        rfl
      have hself : findByName (ensureUpd acc t.links.assignee.title g) n =
          some (g ((findByName acc n).getD (defaultStats n))) := by
        rw [ht]
        exact findByName_ensureUpd_self g hname n acc hn
      rw [hcnt, hself]
      by_cases hz : cntName rest n = 0
      · simp [hz, Function.iterate_succ_apply]
      · rw [if_neg hz, if_neg (by omega)]
        rw [Function.iterate_succ_apply]
        rfl
    · have hcnt : cntName (t :: rest) n = cntName rest n := by
        simp only [cntName, List.filter_cons]
        have : (t.links.assignee.title == n) = false := by simpa using ht
        rw [this]
        simp
      have hother : findByName (ensureUpd acc t.links.assignee.title g) n =
          findByName acc n :=
        findByName_ensureUpd_other g hname t.links.assignee.title n acc
          (fun h => ht h.symm)
      rw [hcnt, hother]

theorem iterate_incInProgress (k : Nat) (e : EmployeeStats) :
    incInProgress^[k] e = { e with inProgress := e.inProgress + k } := by
  induction k with
  | zero => rfl
  | succ k ih =>
    rw [Function.iterate_succ_apply', ih]
    rfl

theorem iterate_incSentToTestToday (k : Nat) (e : EmployeeStats) :
    incSentToTestToday^[k] e = { e with sentToTestToday := e.sentToTestToday + k } := by
  induction k with
  | zero => rfl
  | succ k ih =>
    rw [Function.iterate_succ_apply', ih]
    rfl

theorem iterate_incBacklog (k : Nat) (e : EmployeeStats) :
    incBacklog^[k] e = { e with backlog := e.backlog + k } := by
  induction k with
  | zero => rfl
  | succ k ih =>
    rw [Function.iterate_succ_apply', ih]
    rfl

/-- Closed form: after the three folds, the row of a non-empty name
carries exactly the per-name occurrence counts of the three lists, and
is present exactly when the name occurs at all. -/
theorem findByName_rawStats (backlog inProgress sentToTestToday : List WorkPackage)
    (n : String) (hn : n ≠ "") :
    findByName (rawStats backlog inProgress sentToTestToday) n =
      if cntName inProgress n + cntName sentToTestToday n + cntName backlog n = 0
      then none
      else some { name := n, inProgress := cntName inProgress n,
                  sentToTestToday := cntName sentToTestToday n,
                  backlog := cntName backlog n } := by
  unfold rawStats
  rw [findByName_bumpAll incBacklog (fun e => rfl) backlog n hn,
    findByName_bumpAll incSentToTestToday (fun e => rfl) sentToTestToday n hn,
    findByName_bumpAll incInProgress (fun e => rfl) inProgress n hn]
  have hempty : findByName ([] : List EmployeeStats) n = none := rfl
  rw [hempty]
  by_cases h1 : cntName inProgress n = 0
  · by_cases h2 : cntName sentToTestToday n = 0
    · by_cases h3 : cntName backlog n = 0
      · rw [if_pos h1, if_pos h2, if_pos h3, if_pos (by omega)]
      · rw [if_pos h1, if_pos h2, if_neg h3, if_neg (by omega)]
        simp [iterate_incBacklog, defaultStats, h1, h2]
    · by_cases h3 : cntName backlog n = 0
      · rw [if_pos h1, if_neg h2, if_pos h3, if_neg (by omega)]
        simp [iterate_incSentToTestToday, defaultStats, h1, h3]
      · rw [if_pos h1, if_neg h2, if_neg h3, if_neg (by omega)]
        simp [iterate_incSentToTestToday, iterate_incBacklog, defaultStats, h1]
  · by_cases h2 : cntName sentToTestToday n = 0
    · by_cases h3 : cntName backlog n = 0
      · rw [if_neg h1, if_pos h2, if_pos h3, if_neg (by omega)]
        simp [iterate_incInProgress, defaultStats, h2, h3]
      · rw [if_neg h1, if_pos h2, if_neg h3, if_neg (by omega)]
        simp [iterate_incInProgress, iterate_incBacklog, defaultStats, h2]
    · by_cases h3 : cntName backlog n = 0
      · rw [if_neg h1, if_neg h2, if_pos h3, if_neg (by omega)]
        simp [iterate_incInProgress, iterate_incSentToTestToday, defaultStats, h3]
      · rw [if_neg h1, if_neg h2, if_neg h3, if_neg (by omega)]
        simp [iterate_incInProgress, iterate_incSentToTestToday,
          iterate_incBacklog, defaultStats]

theorem map_name_updFirst (g : EmployeeStats → EmployeeStats)
    (hname : ∀ e, (g e).name = e.name) (n : String) (acc : List EmployeeStats) :
    (updFirst n g acc).map (fun e => e.name) = acc.map (fun e => e.name) := by
  induction acc with
  | nil => rfl
  | cons e rest ih =>
    by_cases he : e.name = n
    · simp [updFirst, if_pos he, hname]
    · simp only [updFirst, if_neg he, List.map_cons, ih]

theorem map_name_ensureUpd (g : EmployeeStats → EmployeeStats)
    (hname : ∀ e, (g e).name = e.name) (n : String) (acc : List EmployeeStats) :
    (ensureUpd acc n g).map (fun e => e.name) =
      if n = "" ∨ acc.any (fun e => e.name == n) = true
      then acc.map (fun e => e.name)
      else acc.map (fun e => e.name) ++ [n] := by
  unfold ensureUpd
  by_cases hn : n = ""
  · rw [if_pos hn, if_pos (Or.inl hn)]
  · rw [if_neg hn]
    by_cases hany : acc.any (fun e => e.name == n) = true
    · rw [if_pos hany, if_pos (Or.inr hany)]
      exact map_name_updFirst g hname n acc
    · rw [if_neg hany, if_neg (by tauto)]
      simp [hname, defaultStats]

theorem namesOK_bumpAll (g : EmployeeStats → EmployeeStats)
    (hname : ∀ e, (g e).name = e.name) (l : List WorkPackage) :
    ∀ acc, (∀ x ∈ acc.map (fun e => e.name), x ≠ "") →
      (acc.map (fun e => e.name)).Nodup →
      (∀ x ∈ (bumpAll g l acc).map (fun e => e.name), x ≠ "") ∧
        ((bumpAll g l acc).map (fun e => e.name)).Nodup := by
  induction l with
  | nil => exact fun acc h1 h2 => ⟨h1, h2⟩
  | cons t rest ih =>
    intro acc h1 h2
    have hstep : bumpAll g (t :: rest) acc =
        bumpAll g rest (ensureUpd acc t.links.assignee.title g) := rfl
    rw [hstep]
    set n := t.links.assignee.title with hn
    by_cases hcase : n = "" ∨ acc.any (fun e => e.name == n) = true
    · refine ih _ ?_ ?_ <;> rw [map_name_ensureUpd g hname n acc, if_pos hcase]
      · exact h1
      · exact h2
    · push_neg at hcase
      have hnotmem : n ∉ acc.map (fun e => e.name) := by
        intro hmem
        obtain ⟨e, hemem, hee⟩ := List.mem_map.mp hmem
        have := (List.any_eq_false.mp
          (Bool.not_eq_true _ ▸ hcase.2 : acc.any (fun e => e.name == n) = false))
          e hemem
        simp [hee] at this
      refine ih _ ?_ ?_ <;> rw [map_name_ensureUpd g hname n acc, if_neg (by tauto)]
      · intro x hx
        rcases List.mem_append.mp hx with h | h
        · exact h1 x h
        · rw [List.mem_singleton.mp h]
          exact hcase.1
      · rw [List.nodup_append]
        exact ⟨h2, List.nodup_singleton n,
          fun x hx hx1 => hnotmem (List.mem_singleton.mp hx1 ▸ hx)⟩

theorem rawStats_namesOK (backlog inProgress sentToTestToday : List WorkPackage) :
    (∀ x ∈ (rawStats backlog inProgress sentToTestToday).map (fun e => e.name),
      x ≠ "") ∧
    ((rawStats backlog inProgress sentToTestToday).map (fun e => e.name)).Nodup := by
  unfold rawStats
  have h1 := namesOK_bumpAll incInProgress (fun e => rfl) inProgress []
    (by simp) (by simp)
  have h2 := namesOK_bumpAll incSentToTestToday (fun e => rfl) sentToTestToday _
    h1.1 h1.2
  exact namesOK_bumpAll incBacklog (fun e => rfl) backlog _ h2.1 h2.2

theorem mem_iff_findByName (l : List EmployeeStats)
    (hnd : (l.map (fun e => e.name)).Nodup) (e : EmployeeStats) :
    e ∈ l ↔ findByName l e.name = some e := by
  constructor
  · intro hmem
    induction l with
    | nil => cases hmem
    | cons a rest ih =>
      rw [List.map_cons, List.nodup_cons] at hnd
      rcases List.mem_cons.mp hmem with he | he
      · subst he
        simp [findByName, List.find?]
      · have hna : (a.name == e.name) = false := by
          simp only [beq_eq_false_iff_ne, ne_eq]
          intro hcontra
          exact hnd.1 (hcontra ▸ List.mem_map_of_mem (fun e => e.name) he)
        simp only [findByName, List.find?, hna]
        exact ih hnd.2 he
  · intro hfind
    exact List.mem_of_find?_eq_some hfind

theorem calculateEmployeeStats_perm_raw
    (backlog inProgress sentToTestToday : List WorkPackage) :
    (calculateEmployeeStats backlog inProgress sentToTestToday).Perm
      (rawStats backlog inProgress sentToTestToday) := by
  rw [calculateEmployeeStats_eq_sort]
  exact List.perm_insertionSort _ _

instance : IsTotal EmployeeStats (fun a b => a.name ≤ b.name) :=
  ⟨fun a b => le_total a.name b.name⟩

instance : IsTrans EmployeeStats (fun a b => a.name ≤ b.name) :=
  ⟨fun _ _ _ hab hbc => le_trans hab hbc⟩

instance : IsAntisymm EmployeeStats (fun a b => a.name < b.name) :=
  ⟨fun _ _ h1 h2 => absurd h2 (lt_asymm h1)⟩

theorem calculateEmployeeStats_pairwise_lt
    (backlog inProgress sentToTestToday : List WorkPackage) :
    (calculateEmployeeStats backlog inProgress sentToTestToday).Pairwise
      (fun x y => x.name < y.name) := by
  have hsorted : List.Sorted (fun a b : EmployeeStats => a.name ≤ b.name)
      (calculateEmployeeStats backlog inProgress sentToTestToday) := by
    rw [calculateEmployeeStats_eq_sort]
    exact List.sorted_insertionSort _ _
  have hperm := calculateEmployeeStats_perm_raw backlog inProgress sentToTestToday
  have hnodup : ((calculateEmployeeStats backlog inProgress
      sentToTestToday).map (fun e => e.name)).Nodup :=
    ((hperm.map (fun e => e.name)).nodup_iff).mpr
      (rawStats_namesOK backlog inProgress sentToTestToday).2
  have hne : (calculateEmployeeStats backlog inProgress sentToTestToday).Pairwise
      (fun x y => x.name ≠ y.name) := List.pairwise_map.mp hnodup
  exact (hsorted.and hne).imp (fun h => lt_of_le_of_ne h.1 h.2)

/-- C4: the aggregated output is sorted strictly ascending by assignee
name (code-point order, which agrees with byte order on UTF-8), and it
is invariant under permuting each of the three input lists. -/
theorem calculateEmployeeStats_sorted_permInvariant
    (b1 ip1 st1 b2 ip2 st2 : List WorkPackage)
    (hb : b1.Perm b2) (hip : ip1.Perm ip2) (hst : st1.Perm st2) :
    (calculateEmployeeStats b1 ip1 st1).Pairwise
      (fun x y => x.name < y.name) ∧
    calculateEmployeeStats b1 ip1 st1 = calculateEmployeeStats b2 ip2 st2 := by
  have hOK1 := rawStats_namesOK b1 ip1 st1
  have hOK2 := rawStats_namesOK b2 ip2 st2
  have hmem : ∀ e, e ∈ rawStats b1 ip1 st1 ↔ e ∈ rawStats b2 ip2 st2 := by
    intro e
    by_cases he : e.name = ""
    · constructor <;> intro h
      · exact absurd he (hOK1.1 e.name (List.mem_map_of_mem (fun e => e.name) h))
      · exact absurd he (hOK2.1 e.name (List.mem_map_of_mem (fun e => e.name) h))
    · rw [mem_iff_findByName _ hOK1.2, mem_iff_findByName _ hOK2.2,
        findByName_rawStats b1 ip1 st1 e.name he,
        findByName_rawStats b2 ip2 st2 e.name he,
        show cntName b1 e.name = cntName b2 e.name from (hb.filter _).length_eq,
        show cntName ip1 e.name = cntName ip2 e.name from (hip.filter _).length_eq,
        show cntName st1 e.name = cntName st2 e.name from (hst.filter _).length_eq]
  have hpermRaw : (rawStats b1 ip1 st1).Perm (rawStats b2 ip2 st2) :=
    (List.perm_ext_iff_of_nodup (List.Nodup.of_map _ hOK1.2)
      (List.Nodup.of_map _ hOK2.2)).mpr hmem
  have hchain : (calculateEmployeeStats b1 ip1 st1).Perm
      (calculateEmployeeStats b2 ip2 st2) :=
    (calculateEmployeeStats_perm_raw b1 ip1 st1).trans
      (hpermRaw.trans (calculateEmployeeStats_perm_raw b2 ip2 st2).symm)
  exact ⟨calculateEmployeeStats_pairwise_lt b1 ip1 st1,
    List.eq_of_perm_of_sorted hchain
      (calculateEmployeeStats_pairwise_lt b1 ip1 st1)
      (calculateEmployeeStats_pairwise_lt b2 ip2 st2)⟩

theorem calculateEmployeeStats_sorted_permInvariant_witness :
    ([mkSampleTask "Новая" "Анна" "x", mkSampleTask "Новая" "Борис" "x"]).Perm
      [mkSampleTask "Новая" "Борис" "x", mkSampleTask "Новая" "Анна" "x"] ∧
    ([mkSampleTask "В работе" "Вера" "x"]).Perm
      [mkSampleTask "В работе" "Вера" "x"] ∧
    ([] : List WorkPackage).Perm [] ∧
    ((calculateEmployeeStats
        [mkSampleTask "Новая" "Анна" "x", mkSampleTask "Новая" "Борис" "x"]
        [mkSampleTask "В работе" "Вера" "x"] []).Pairwise
      (fun x y => x.name < y.name) ∧
    calculateEmployeeStats
        [mkSampleTask "Новая" "Анна" "x", mkSampleTask "Новая" "Борис" "x"]
        [mkSampleTask "В работе" "Вера" "x"] [] =
      calculateEmployeeStats
        [mkSampleTask "Новая" "Борис" "x", mkSampleTask "Новая" "Анна" "x"]
        [mkSampleTask "В работе" "Вера" "x"] []) :=
  ⟨List.Perm.swap (mkSampleTask "Новая" "Борис" "x")
      (mkSampleTask "Новая" "Анна" "x") [],
    List.Perm.refl _, List.Perm.refl _,
    calculateEmployeeStats_sorted_permInvariant _ _ _ _ _ _
      (List.Perm.swap (mkSampleTask "Новая" "Борис" "x")
        (mkSampleTask "Новая" "Анна" "x") [])
      (List.Perm.refl _) (List.Perm.refl _)⟩

theorem classify_empty_status_discarded_witness :
    ({ id := 3, subject := "s", links := sampleLinks "" "Carol",
       startDate := none, dueDate := some "2024-07-01", createdAt := "c",
       updatedAt := "2024-06-01T10:00:00Z",
       testPassedDate := none } : WorkPackage).links.status.title = "" ∧
    classifyTask
      { id := 3, subject := "s", links := sampleLinks "" "Carol",
        startDate := none, dueDate := some "2024-07-01", createdAt := "c",
        updatedAt := "2024-06-01T10:00:00Z",
        testPassedDate := none } asOfJune1 = "" :=
  ⟨rfl, classify_empty_status_discarded _ asOfJune1 rfl⟩

/-! ### Source client: pagination (C6) and error taxonomy (C7) -/

theorem fetchLoop_chain (world : String → FetchStep) (baseURL : String)
    {url : String} {ps : List Page} (h : PageChain world baseURL url ps) :
    ∀ acc fuel, ps.length ≤ fuel →
      fetchLoop world baseURL fuel url acc =
        some (.ok (acc ++ ps.flatMap (fun p => p.elements))) := by
  induction h with
  | last url body p hw hnext =>
    intro acc fuel hfuel
    obtain ⟨k, rfl⟩ : ∃ k, fuel = k + 1 := by
      cases fuel with
      | zero => simp at hfuel
      | succ k => exact ⟨k, rfl⟩
    simp only [fetchLoop, hw]
    cases hnext with
    | inl h0 => rw [h0]; simp
    | inr h0 => rw [h0]; simp
  | step url body p href ps hw hnext hne hchain ih =>
    intro acc fuel hfuel
    obtain ⟨k, rfl⟩ : ∃ k, fuel = k + 1 := by
      cases fuel with
      | zero => simp at hfuel
      | succ k => exact ⟨k, rfl⟩
    simp only [fetchLoop, hw]
    rw [hnext]
    simp only [if_neg hne]
    rw [ih (acc ++ p.elements) k (by simp at hfuel; omega)]
    simp

theorem fetchLoop_no_terminal_no_success (world : String → FetchStep)
    (baseURL : String)
    (hall : ∀ url status body p, world url = .resp status body (some p) →
      ∃ href, p.nextHref = some href ∧ href ≠ "") :
    ∀ fuel url acc l, fetchLoop world baseURL fuel url acc ≠ some (.ok l) := by
  intro fuel
  induction fuel with
  | zero => intro url acc l h; exact Option.noConfusion h
  | succ k ih =>
    intro url acc l h
    cases hw : world url with
    | netError c =>
      have hval : fetchLoop world baseURL (k + 1) url acc =
          some (.error (if c then .canceled else .doRequest)) := by
        simp only [fetchLoop, hw]
      rw [hval] at h
      simp at h
    | resp status body decoded =>
      by_cases hs : status = 200
      · subst hs
        cases decoded with
        | none =>
          have hval : fetchLoop world baseURL (k + 1) url acc =
              some (.error .unmarshal) := by
            simp only [fetchLoop, hw]
            simp
          rw [hval] at h
          simp at h
        | some page =>
          obtain ⟨href, hhref, hne⟩ := hall url 200 body page hw
          have hval : fetchLoop world baseURL (k + 1) url acc =
              fetchLoop world baseURL k (resolveURL baseURL href)
                (acc ++ page.elements) := by
            simp only [fetchLoop, hw]
            rw [hhref]
            simp [hne]
          rw [hval] at h
          exact ih _ _ _ h
      · have hval : fetchLoop world baseURL (k + 1) url acc =
            some (.error (.apiStatus status body)) := by
          simp only [fetchLoop, hw, if_pos hs]
        rw [hval] at h
        simp at h

/-- C6: starting from the constructed initial URL, when the oracle
presents a chain of 200-status, well-decoded pages linked by next
hrefs and ending at a page without a next link, the fetcher returns
the page-ordered concatenation of all decoded records.  The initial
URL carries the bounded page size; next hrefs are taken verbatim when
absolute and resolved against the trimmed base URL otherwise; and
against an oracle in which every decoded page carries a non-empty next
link the loop never returns success. -/
theorem fetchTasks_pagination (world : String → FetchStep)
    (baseURL projectID assigneeID : String) (ps : List Page) (fuel : Nat)
    (hchain : PageChain world baseURL (initialURL baseURL projectID assigneeID) ps)
    (hfuel : ps.length ≤ fuel) :
    fetchWorkPackagesForUser world baseURL projectID assigneeID fuel =
      some (.ok (ps.flatMap (fun p => p.elements))) ∧
    (∃ pre, initialURL baseURL projectID assigneeID =
      pre ++ "&pageSize=" ++ natToStr defaultPageSize) ∧
    (∀ href : String,
      (isPrefixOfB "http://".data href.data ||
        isPrefixOfB "https://".data href.data) = true →
      resolveURL baseURL href = href) ∧
    (∀ href : String,
      (isPrefixOfB "http://".data href.data ||
        isPrefixOfB "https://".data href.data) = false →
      resolveURL baseURL href = trimRightSlashes baseURL ++ href) ∧
    (∀ world2 : String → FetchStep,
      (∀ url status body p, world2 url = .resp status body (some p) →
        ∃ href, p.nextHref = some href ∧ href ≠ "") →
      ∀ fuel2 url2 acc2 l, fetchLoop world2 baseURL fuel2 url2 acc2 ≠
        some (.ok l)) := by
  refine ⟨?_, ?_, ?_, ?_, ?_⟩
  · rw [fetchWorkPackagesForUser, fetchLoop_chain world baseURL hchain [] fuel hfuel]
    simp
  · refine ⟨trimRightSlashes baseURL ++ "/api/v3/work_packages" ++ "?" ++
      "filters=" ++ queryEscape (filtersJSON projectID assigneeID), ?_⟩
    rw [initialURL,
      show queryEscape (natToStr defaultPageSize) = natToStr defaultPageSize from rfl]
  · intro href hpre
    rw [resolveURL, if_pos hpre]
  · intro href hpre
    rw [resolveURL, if_neg (by rw [hpre]; exact Bool.false_ne_true)]
  · exact fun world2 hall => fetchLoop_no_terminal_no_success world2 baseURL hall

theorem fetchTasks_pagination_witness :
    PageChain wWorld wBase wStart [wPage1, wPage2] ∧
    ([wPage1, wPage2] : List Page).length ≤ 2 ∧
    fetchWorkPackagesForUser wWorld wBase "12" "7" 2 =
      some (.ok [wTask1, wTask2]) := by
  have h1 : wWorld wStart = .resp 200 "page1" (some wPage1) := by
    simp [wWorld]
  have hne : wNextURL ≠ wStart := by decide
  have h2 : wWorld wNextURL = .resp 200 "page2" (some wPage2) := by
    simp only [wWorld, if_neg hne]
    simp
  have hresolve : resolveURL wBase wNextURL = wNextURL := rfl
  have hlast : PageChain wWorld wBase (resolveURL wBase wNextURL) [wPage2] := by
    rw [hresolve]
    exact PageChain.last wNextURL "page2" wPage2 h2 (Or.inl rfl)
  have hchain : PageChain wWorld wBase wStart [wPage1, wPage2] :=
    PageChain.step wStart "page1" wPage1 wNextURL [wPage2] h1 rfl (by decide) hlast
  refine ⟨hchain, by decide, ?_⟩
  have hrun := (fetchTasks_pagination wWorld wBase "12" "7" [wPage1, wPage2] 2
    hchain (by decide)).1
  exact hrun.trans rfl

/-- C7: a transport failure of the HTTP call yields the distinct
cancellation error when the context was canceled and the wrapped
transport error otherwise; a non-200 response yields a protocol error
carrying the raw status and body; a 200 response whose body does not
decode yields the unmarshal error.  Each failure is returned
immediately regardless of the remaining fuel: the fetcher performs no
retry of its own. -/
theorem fetchTasks_error_taxonomy (world : String → FetchStep)
    (baseURL url : String) (acc : List WorkPackage) (fuel : Nat) :
    (∀ c, world url = .netError c →
      fetchLoop world baseURL (fuel + 1) url acc =
        some (.error (if c then .canceled else .doRequest))) ∧
    (∀ status body decoded, world url = .resp status body decoded →
      status ≠ 200 →
      fetchLoop world baseURL (fuel + 1) url acc =
        some (.error (.apiStatus status body))) ∧
    (∀ body, world url = .resp 200 body none →
      fetchLoop world baseURL (fuel + 1) url acc =
        some (.error .unmarshal)) ∧
    FetchError.canceled ≠ FetchError.doRequest := by
  refine ⟨?_, ?_, ?_, by decide⟩
  · intro c hw
    simp only [fetchLoop, hw]
  · intro status body decoded hw hs
    simp only [fetchLoop, hw, if_pos hs]
  · intro body hw
    simp only [fetchLoop, hw]
    simp

theorem fetchTasks_error_taxonomy_witness :
    fetchLoop (fun _ => FetchStep.netError true) wBase 1 "u" [] =
      some (.error .canceled) ∧
    fetchLoop (fun _ => FetchStep.netError false) wBase 1 "u" [] =
      some (.error .doRequest) ∧
    fetchLoop (fun _ => FetchStep.resp 503 "oops" none) wBase 1 "u" [] =
      some (.error (.apiStatus 503 "oops")) ∧
    fetchLoop (fun _ => FetchStep.resp 200 "garbage" none) wBase 1 "u" [] =
      some (.error .unmarshal) :=
  ⟨(fetchTasks_error_taxonomy (fun _ => FetchStep.netError true) wBase "u" [] 0).1
      true rfl,
    (fetchTasks_error_taxonomy (fun _ => FetchStep.netError false) wBase "u" [] 0).1
      false rfl,
    (fetchTasks_error_taxonomy (fun _ => FetchStep.resp 503 "oops" none) wBase
      "u" [] 0).2.1 503 "oops" none rfl (by decide),
    (fetchTasks_error_taxonomy (fun _ => FetchStep.resp 200 "garbage" none) wBase
      "u" [] 0).2.2.1 "garbage" rfl⟩

/-! ### Dispatcher error surface (C5) -/

/-- C5: collection returns an error exactly when the cancellation
signal was triggered or the job cross-product is empty; the empty job
set yields the configuration error (checked before anything runs, so
no results exist); with jobs present and no cancellation the result is
success for every fetch oracle, including oracles whose jobs all fail:
a per-job failure is skipped, never escalated. -/
theorem collectAll_error_surface (projectIDs assigneeIDs : List String)
    (fetch : String → String → Except FetchError (List WorkPackage))
    (canceled : Bool) (reportDate : GoTime) :
    ((∃ e, collectAndClassifyTasks projectIDs assigneeIDs fetch canceled
        reportDate = .error e) ↔
      canceled = true ∨ projectIDs.length * assigneeIDs.length = 0) ∧
    (projectIDs.length * assigneeIDs.length = 0 →
      collectAndClassifyTasks projectIDs assigneeIDs fetch canceled reportDate =
        .error .configurationError) ∧
    (canceled = true → projectIDs.length * assigneeIDs.length ≠ 0 →
      collectAndClassifyTasks projectIDs assigneeIDs fetch canceled reportDate =
        .error .canceled) ∧
    (canceled = false → projectIDs.length * assigneeIDs.length ≠ 0 →
      ∃ res, collectAndClassifyTasks projectIDs assigneeIDs fetch canceled
        reportDate = .ok res) := by
  unfold collectAndClassifyTasks
  by_cases hempty : projectIDs.length * assigneeIDs.length = 0
  · rw [if_pos hempty]
    exact ⟨⟨fun _ => Or.inr hempty, fun _ => ⟨.configurationError, rfl⟩⟩,
      fun _ => rfl, fun _ hne => absurd hempty hne,
      fun _ hne => absurd hempty hne⟩
  · rw [if_neg hempty]
    by_cases hc : canceled = true
    · rw [if_pos hc]
      exact ⟨⟨fun _ => Or.inl hc, fun _ => ⟨.canceled, rfl⟩⟩,
        fun h => absurd h hempty, fun _ _ => rfl,
        fun h _ => nomatch h ▸ hc⟩
    · rw [if_neg hc]
      refine ⟨⟨fun ⟨e, he⟩ => Except.noConfusion he, ?_⟩,
        fun h => absurd h hempty, fun h _ => absurd h hc, fun _ _ => ⟨_, rfl⟩⟩
      rintro (h | h)
      · exact absurd h hc
      · exact absurd h hempty

theorem collectAll_error_surface_witness :
    collectAndClassifyTasks [] ["7"]
      (fun _ _ => .ok []) false asOfJune1 = .error .configurationError ∧
    collectAndClassifyTasks ["1"] ["7"]
      (fun _ _ => .ok []) true asOfJune1 = .error .canceled ∧
    (∃ res, collectAndClassifyTasks ["1"] ["7"]
      (fun _ _ => .error .doRequest) false asOfJune1 = .ok res) :=
  ⟨(collectAll_error_surface [] ["7"] (fun _ _ => .ok []) false asOfJune1).2.1
      (by decide),
    (collectAll_error_surface ["1"] ["7"] (fun _ _ => .ok []) true asOfJune1).2.2.1
      rfl (by decide),
    (collectAll_error_surface ["1"] ["7"] (fun _ _ => .error .doRequest) false
      asOfJune1).2.2.2 rfl (by decide)⟩

end OpenProjectBot
